import Mathlib

/-!
Shallow embedding of the GraphQL schema/resolver layer of the
`graphql-hackernews` repository (file `src/schema.ts`, final variant:
feed with `filterNeedle`/`skip`/`take`, `comment`, `allComments`,
`postLink`, `postCommentOnLink`, `Link.comments`).

The backing data store (Prisma over a relational database) is modelled
as an explicit `Store` state: a list of links and a list of comments in
insertion order, plus the next auto-increment comment id.  JavaScript
numbers that may be `NaN` are modelled as `Option Int` (`none` = `NaN`).
Fallible resolvers return `Except ResolverError`.
-/

namespace HackerNews

/-- `/^(\d+)$/.test value` from `parseIntSafe` in `src/schema.ts`:
the string is non-empty and consists only of ASCII decimal digits. -/
def regexDigitsTest (value : String) : Bool :=
  !value.data.isEmpty && value.data.all Char.isDigit

/-- Decimal value of a digit character list, most-significant first
(the value `parseInt` computes once the digit segment is isolated). -/
def digitsToNat (cs : List Char) : Nat :=
  cs.foldl (fun a c => 10 * a + (c.toNat - 48)) 0

/-- Whitespace skipped by JavaScript `parseInt` (the common WhiteSpace /
LineTerminator code points). -/
def isJsSpace (c : Char) : Bool :=
  c = ' ' || c = '\t' || c = '\n' || c = '\r' ||
  c = '\x0b' || c = '\x0c' || c = ' ' || c = '﻿'

/-- Digit-segment step of `parseInt`: longest leading run of decimal
digits; `none` (= `NaN`) when that run is empty. -/
def jsParseIntDigits (cs : List Char) : Option Int :=
  let ds := cs.takeWhile Char.isDigit
  if ds.isEmpty then none else some (digitsToNat ds)

/-- Sign-and-digits step of `parseInt` on the whitespace-stripped
character list: an optional single sign, then the digit segment. -/
def jsParseIntCore : List Char → Option Int
  | [] => none
  | c :: rest =>
      if c = '-' then (jsParseIntDigits rest).map (fun n => -n)
      else if c = '+' then jsParseIntDigits rest
      else jsParseIntDigits (c :: rest)

/-- JavaScript `parseInt(s, 10)`: skip leading whitespace, optional
sign, then the longest prefix of decimal digits; `NaN` (here `none`)
when no digits follow.  Trailing garbage is ignored. -/
def jsParseInt (s : String) : Option Int :=
  jsParseIntCore (s.data.dropWhile isJsSpace)

/-- `parseIntSafe` from `src/schema.ts`:
`if (/^(\d+)$/.test(value)) return parseInt(value, 10); return null;`.
`none` stands for the `null` result. -/
def parseIntSafe (value : String) : Option Int :=
  if regexDigitsTest value then jsParseInt value else none

/-- A `Link` row: `id` (store-assigned), `description`, `url`. -/
structure Link where
  id : Int
  description : String
  url : String
deriving Repr, DecidableEq

/-- A `Comment` row: `id` (store-assigned), `body`, foreign key `linkId`. -/
structure Comment where
  id : Int
  body : String
  linkId : Int
deriving Repr, DecidableEq

/-- The backing store: rows in insertion order, plus the next
auto-increment id for comments. -/
structure Store where
  links : List Link
  comments : List Comment
  nextCommentId : Int
deriving Repr, DecidableEq

/-- An error surfaced by the Prisma client: `known code message`
models `PrismaClientKnownRequestError` with its `code` field
(`instanceof` distinguishes the constructors); `other` models every
other store failure. -/
inductive PrismaError where
  | known (code : String) (message : String)
  | other (message : String)
deriving Repr, DecidableEq

/-- An error escaping a resolver: either a `GraphQLError` the resolver
constructed itself, or a store error propagated unchanged. -/
inductive ResolverError where
  | graphQL (message : String)
  | store (e : PrismaError)
deriving Repr, DecidableEq

/-- `headMatch needle hay`: `hay` starts with `needle`. -/
def headMatch : List Char → List Char → Bool
  | [], _ => true
  | _ :: _, [] => false
  | a :: as, b :: bs => a = b && headMatch as bs

/-- `segIn needle hay`: `needle` occurs contiguously somewhere in `hay`. -/
def segIn (needle : List Char) : List Char → Bool
  | [] => headMatch needle []
  | b :: t => headMatch needle (b :: t) || segIn needle t

/-- The store's case-sensitive `contains` operator on strings. -/
def strContains (hay needle : String) : Bool :=
  segIn needle.data hay.data

/-- The `where` condition the `feed` resolver hands to the store:
`args.filterNeedle ? { OR: [ description contains, url contains ] } : {}`.
A `some ""` needle is falsy in JavaScript, so it selects the empty
condition exactly like an absent needle. -/
def feedWhere : Option String → Link → Bool
  | some nd, l =>
      if nd = "" then true
      else strContains l.description nd || strContains l.url nd
  | none, _ => true

/-- The message of the `GraphQLError` thrown by `applyTakeConstraints`. -/
def takeConstraintMsg (min max value : Int) : String :=
  "'take' argument value '" ++ toString value ++
    "' is outside the valid range of '" ++ toString min ++ "' to '" ++
    toString max ++ "'."

/-- `applyTakeConstraints` from `src/schema.ts`: throw a `GraphQLError`
when `value` lies outside `[min, max]`, otherwise return `value`. -/
def applyTakeConstraints (min max value : Int) : Except ResolverError Int :=
  if value < min || value > max then
    .error (.graphQL (takeConstraintMsg min max value))
  else
    .ok value

/-- `prisma.link.findMany({ where, skip, take })`: rows in insertion
order, filtered, then sliced.  An absent `skip` means `0`. -/
def linkFindMany (s : Store) (w : Link → Bool) (skip : Option Nat)
    (take : Nat) : List Link :=
  (((s.links.filter w).drop (skip.getD 0)).take take)

/-- The `feed` query resolver: build the `where` condition, validate
`args.take ?? 30` against `[1, 50]`, then delegate to the store.
`skip` is typed non-negative (GraphQL `Int`, validated by the store). -/
def feed (s : Store) (filterNeedle : Option String) (skip : Option Nat)
    (take? : Option Int) : Except ResolverError (List Link) :=
  let w := feedWhere filterNeedle
  match applyTakeConstraints 1 50 (take?.getD 30) with
  | .error e => .error e
  | .ok t => .ok (linkFindMany s w skip t.toNat)

/-- `prisma.comment.findUnique({ where: { id } })`: the first row whose
`id` equals the argument; a `NaN` id (`none`) equals no integer row id,
so nothing is found. -/
def commentFindUnique (s : Store) : Option Int → Option Comment
  | none => none
  | some n => s.comments.find? (fun c => c.id = n)

/-- The `comment` query resolver:
`prisma.comment.findUnique({ where: { id: parseInt(args.id) } })` —
an unguarded `parseInt`, no error handling of its own. -/
def commentQuery (s : Store) (idArg : String) : Option Comment :=
  commentFindUnique s (jsParseInt idArg)

/-- The `comment` resolver abstracted over the store call: it hands
`parseInt(args.id)` to `findUnique` and returns whatever the store
returns, adding no check or error of its own. -/
def commentQueryGen {α : Type} (findUnique : Option Int → α)
    (idArg : String) : α :=
  findUnique (jsParseInt idArg)

/-- The `allComments` query resolver: `prisma.comment.findMany()`. -/
def allComments (s : Store) : List Comment :=
  s.comments

/-- The `Link.comments` field resolver:
`prisma.comment.findMany({ where: { linkId: parent.id } })`. -/
def linkComments (s : Store) (parent : Link) : List Comment :=
  s.comments.filter (fun c => c.linkId = parent.id)

/-- The uniform message of the `GraphQLError` raised by
`postCommentOnLink`, embedding the raw `args.linkId` string. -/
def cannotPostMsg (linkIdArg : String) : String :=
  "Cannot post comment on non-existing link with id '" ++ linkIdArg ++ "'."

/-- `prisma.comment.create({ data: { linkId, body } })`: rejects a
foreign key pointing at no existing link with the known error code
`P2003`; a `NaN` link id (`none`) is rejected by the client's argument
validation; otherwise appends one row with the next store-assigned id. -/
def commentCreate (s : Store) (linkId : Option Int) (body : String) :
    Except PrismaError (Comment × Store) :=
  match linkId with
  | none => .error (.other "invalid value NaN for field linkId")
  | some n =>
      if s.links.any (fun l => l.id = n) then
        let c : Comment := ⟨s.nextCommentId, body, n⟩
        .ok (c, ⟨s.links, s.comments ++ [c], s.nextCommentId + 1⟩)
      else
        .error (.known "P2003" "Foreign key constraint failed")

/-- The `.catch` handler of `postCommentOnLink`: a known request error
with code `P2003` is re-raised as the domain `GraphQLError`; every
other error is re-rejected unchanged. -/
def postCommentCatch (linkIdArg : String) (e : PrismaError) : ResolverError :=
  match e with
  | .known code m =>
      if code = "P2003" then .graphQL (cannotPostMsg linkIdArg)
      else .store (.known code m)
  | .other m => .store (.other m)

/-- The `postCommentOnLink` resolver abstracted over the store's
`create` call: reject with the domain `GraphQLError` when
`parseIntSafe(args.linkId)` is `null`; otherwise call `create` with
`parseInt(args.linkId)` and route any store error through the
`.catch` handler. -/
def postCommentOnLinkGen
    (create : Option Int → String → Except PrismaError (Comment × Store))
    (linkIdArg body : String) : Except ResolverError (Comment × Store) :=
  match parseIntSafe linkIdArg with
  | none => .error (.graphQL (cannotPostMsg linkIdArg))
  | some _ =>
      match create (jsParseInt linkIdArg) body with
      | .ok r => .ok r
      | .error e => .error (postCommentCatch linkIdArg e)

/-- The `postCommentOnLink` mutation resolver against the concrete
store. -/
def postCommentOnLink (s : Store) (linkIdArg body : String) :
    Except ResolverError (Comment × Store) :=
  postCommentOnLinkGen (commentCreate s) linkIdArg body

/-! ### Supporting lemmas -/

theorem headMatch_iff (n h : List Char) :
    headMatch n h = true ↔ ∃ q, h = n ++ q := by
  induction n generalizing h with
  | nil => simp [headMatch]
  | cons a as ih =>
    cases h with
    | nil => simp [headMatch]
    | cons b bs =>
      simp only [headMatch, Bool.and_eq_true, decide_eq_true_eq, ih,
        List.cons_append]
      constructor
      · rintro ⟨rfl, q, rfl⟩
        exact ⟨q, rfl⟩
      · rintro ⟨q, hq⟩
        injection hq with h1 h2
        exact ⟨h1.symm, q, h2⟩

theorem segIn_iff (n h : List Char) :
    segIn n h = true ↔ ∃ p q, h = p ++ n ++ q := by
  induction h with
  | nil =>
    rw [show segIn n [] = headMatch n [] from rfl, headMatch_iff]
    constructor
    · rintro ⟨q, hq⟩
      exact ⟨[], q, by simpa using hq⟩
    · rintro ⟨p, q, hpq⟩
      have h' := hpq.symm
      simp only [List.append_eq_nil] at h'
      exact ⟨[], by simp [h'.1.2]⟩
  | cons b t ih =>
    rw [show segIn n (b :: t) = (headMatch n (b :: t) || segIn n t) from rfl,
      Bool.or_eq_true, headMatch_iff, ih]
    constructor
    · rintro (⟨q, hq⟩ | ⟨p, q, hpq⟩)
      · exact ⟨[], q, by simpa using hq⟩
      · exact ⟨b :: p, q, by simp [hpq]⟩
    · rintro ⟨p, q, hpq⟩
      cases p with
      | nil => exact Or.inl ⟨q, by simpa using hpq⟩
      | cons x xs =>
        rw [List.cons_append, List.cons_append] at hpq
        injection hpq with h1 h2
        exact Or.inr ⟨xs, q, by simpa using h2⟩

theorem strContains_iff (hay needle : String) :
    strContains hay needle = true ↔
      ∃ p q, hay.data = p ++ needle.data ++ q :=
  segIn_iff needle.data hay.data

theorem digitsToNat_eq_ofDigits (cs : List Char) :
    digitsToNat cs =
      Nat.ofDigits 10 ((cs.map fun c => c.toNat - 48).reverse) := by
  suffices h : ∀ (l : List Char) (a : Nat),
      l.foldl (fun a c => 10 * a + (c.toNat - 48)) a =
        Nat.ofDigits 10 ((l.map fun c => c.toNat - 48).reverse) +
          a * 10 ^ l.length by
    simpa [digitsToNat] using h cs 0
  intro l
  induction l with
  | nil => intro a; simp
  | cons c t ih =>
    intro a
    simp only [List.foldl_cons, ih, List.map_cons, List.reverse_cons,
      Nat.ofDigits_append, List.length_cons, List.length_reverse,
      List.length_map, Nat.ofDigits_cons, Nat.ofDigits_nil]
    ring

theorem isDigit_not_jsSpace {c : Char} (h : c.isDigit = true) :
    isJsSpace c = false := by
  by_contra hns
  rw [Bool.not_eq_false] at hns
  simp only [isJsSpace, Bool.or_eq_true, decide_eq_true_eq] at hns
  rcases hns with ((((((h1 | h2) | h3) | h4) | h5) | h6) | h7) | h8 <;>
    subst_vars <;> exact absurd h (by decide)

theorem isDigit_ne_dash {c : Char} (h : c.isDigit = true) : c ≠ '-' := by
  intro e
  subst e
  exact absurd h (by decide)

theorem isDigit_ne_plus {c : Char} (h : c.isDigit = true) : c ≠ '+' := by
  intro e
  subst e
  exact absurd h (by decide)

theorem jsParseInt_digits {s : String} (hd : regexDigitsTest s = true) :
    jsParseInt s = some ((digitsToNat s.data : Nat) : Int) := by
  simp only [regexDigitsTest, Bool.and_eq_true, Bool.not_eq_true',
    List.all_eq_true] at hd
  obtain ⟨hne, hall⟩ := hd
  unfold jsParseInt
  cases hcs : s.data with
  | nil => rw [hcs] at hne; simp at hne
  | cons c rest =>
    have hcdig : c.isDigit = true := hall c (by rw [hcs]; exact List.mem_cons_self _ _)
    have hdw : List.dropWhile isJsSpace (c :: rest) = c :: rest := by
      rw [List.dropWhile_cons, isDigit_not_jsSpace hcdig]
      simp
    rw [hdw]
    simp only [jsParseIntCore]
    rw [if_neg (isDigit_ne_dash hcdig), if_neg (isDigit_ne_plus hcdig)]
    unfold jsParseIntDigits
    have htw : (c :: rest).takeWhile Char.isDigit = c :: rest :=
      List.takeWhile_eq_self_iff.mpr (fun x hx => hall x (by rw [hcs]; exact hx))
    rw [htw]
    simp

theorem parseIntSafe_eq_some {s : String} {n : Int}
    (h : parseIntSafe s = some n) :
    regexDigitsTest s = true ∧ jsParseInt s = some n := by
  unfold parseIntSafe at h
  by_cases ht : regexDigitsTest s = true
  · rw [if_pos ht] at h
    exact ⟨ht, h⟩
  · rw [if_neg ht] at h
    cases h

theorem applyTake_ok_of_range {t : Int} (h1 : 1 ≤ t) (h2 : t ≤ 50) :
    applyTakeConstraints 1 50 t = .ok t := by
  unfold applyTakeConstraints
  rw [if_neg]
  simp only [Bool.or_eq_true, decide_eq_true_eq, not_or, not_lt]
  exact ⟨h1, h2⟩

theorem applyTake_error_of_out {t : Int} (h : t < 1 ∨ 50 < t) :
    applyTakeConstraints 1 50 t =
      .error (.graphQL (takeConstraintMsg 1 50 t)) := by
  unfold applyTakeConstraints
  rw [if_pos]
  simp only [Bool.or_eq_true, decide_eq_true_eq]
  exact h

theorem feed_ok_of_range (s : Store) (needle : Option String)
    (skip : Option Nat) {t : Int} (h1 : 1 ≤ t) (h2 : t ≤ 50) :
    feed s needle skip (some t) =
      .ok (linkFindMany s (feedWhere needle) skip t.toNat) := by
  unfold feed
  simp only [Option.getD_some]
  rw [applyTake_ok_of_range h1 h2]

theorem feed_default_take (s : Store) (needle : Option String)
    (skip : Option Nat) :
    feed s needle skip none =
      .ok (linkFindMany s (feedWhere needle) skip 30) := by
  unfold feed
  simp only [Option.getD_none]
  rw [show applyTakeConstraints 1 50 30 = .ok 30 from rfl]
  rfl

/-! ### Claims -/

/-- Claim C2: for every `take` value strictly below 1 or strictly above
50, the `feed` resolver fails with the validation `GraphQLError` before
any store call (the error does not depend on the store), and its
message contains the offending value, the bound `1` and the bound `50`;
for `take` in `[1, 50]`, and for an absent `take` (defaulting to 30),
no such error is raised. -/
theorem feed_take_validated (s : Store) (needle : Option String)
    (skip : Option Nat) (t : Int) :
    ((t < 1 ∨ 50 < t) →
        feed s needle skip (some t) =
          .error (.graphQL (takeConstraintMsg 1 50 t)) ∧
        strContains (takeConstraintMsg 1 50 t) (toString t) = true ∧
        strContains (takeConstraintMsg 1 50 t) "1" = true ∧
        strContains (takeConstraintMsg 1 50 t) "50" = true) ∧
    (1 ≤ t → t ≤ 50 →
        feed s needle skip (some t) =
          .ok (linkFindMany s (feedWhere needle) skip t.toNat)) ∧
    feed s needle skip none =
      .ok (linkFindMany s (feedWhere needle) skip 30) := by
  refine ⟨?_, fun h1 h2 => feed_ok_of_range s needle skip h1 h2,
    feed_default_take s needle skip⟩
  intro h
  refine ⟨?_, ?_, ?_, ?_⟩
  · unfold feed
    simp only [Option.getD_some]
    rw [applyTake_error_of_out h]
  · refine (strContains_iff _ _).mpr
      ⟨("'take' argument value '" : String).data,
       ("' is outside the valid range of '" ++ toString (1 : Int) ++
         "' to '" ++ toString (50 : Int) ++ "'." : String).data, ?_⟩
    simp [takeConstraintMsg, String.data_append, List.append_assoc]
  · refine (strContains_iff _ _).mpr
      ⟨("'take' argument value '" ++ toString t ++
         "' is outside the valid range of '" : String).data,
       ("' to '" ++ toString (50 : Int) ++ "'." : String).data, ?_⟩
    simp [takeConstraintMsg, String.data_append, List.append_assoc,
      show toString (1 : Int) = "1" from rfl]
  · refine (strContains_iff _ _).mpr
      ⟨("'take' argument value '" ++ toString t ++
         "' is outside the valid range of '" ++ toString (1 : Int) ++
         "' to '" : String).data,
       ("'." : String).data, ?_⟩
    simp [takeConstraintMsg, String.data_append, List.append_assoc,
      show toString (50 : Int) = "50" from rfl]

/-- Witness for `feed_take_validated` at `take = 0` (out of range) and
`take = 2` (in range) on a one-link store. -/
theorem feed_take_validated_witness :
    ((0 : Int) < 1 ∨ (50 : Int) < 0 →
        feed ⟨[⟨1, "d", "u"⟩], [], 1⟩ none none (some 0) =
          .error (.graphQL (takeConstraintMsg 1 50 0)) ∧
        strContains (takeConstraintMsg 1 50 0) (toString (0 : Int)) = true ∧
        strContains (takeConstraintMsg 1 50 0) "1" = true ∧
        strContains (takeConstraintMsg 1 50 0) "50" = true) ∧
    ((1 : Int) ≤ 2 → (2 : Int) ≤ 50 →
        feed ⟨[⟨1, "d", "u"⟩], [], 1⟩ none none (some 2) =
          .ok (linkFindMany ⟨[⟨1, "d", "u"⟩], [], 1⟩ (feedWhere none) none
            (2 : Int).toNat)) ∧
    feed ⟨[⟨1, "d", "u"⟩], [], 1⟩ none none none =
      .ok (linkFindMany ⟨[⟨1, "d", "u"⟩], [], 1⟩ (feedWhere none) none 30) :=
  And.intro
    (fun _ => (feed_take_validated ⟨[⟨1, "d", "u"⟩], [], 1⟩ none none 0).1
      (Or.inl (by decide)))
    (And.intro
      (fun _ _ => (feed_take_validated ⟨[⟨1, "d", "u"⟩], [], 1⟩ none none 2).2.1
        (by decide) (by decide))
      (feed_take_validated ⟨[⟨1, "d", "u"⟩], [], 1⟩ none none 2).2.2)

/-- Claim C3: for every string `s`, `parseIntSafe` returns the decimal
value of `s` exactly when `s` is a non-empty string of ASCII decimal
digits (the regex `^\d+$`: no sign, no whitespace, no other
characters), and the `null` result (`none`) otherwise. -/
theorem parseIntSafe_digits_only (s : String) :
    parseIntSafe s =
      (if s.data ≠ [] ∧ ∀ c ∈ s.data, c.isDigit = true then
        some ((Nat.ofDigits 10
          ((s.data.map fun c => c.toNat - 48).reverse) : Nat) : Int)
      else none) := by
  by_cases h : s.data ≠ [] ∧ ∀ c ∈ s.data, c.isDigit = true
  · rw [if_pos h]
    have hne : s.data.isEmpty = false := by
      cases hcs : s.data with
      | nil => exact absurd hcs h.1
      | cons a l => rfl
    have ht : regexDigitsTest s = true := by
      simp only [regexDigitsTest, Bool.and_eq_true, Bool.not_eq_true',
        List.all_eq_true]
      exact ⟨hne, h.2⟩
    unfold parseIntSafe
    rw [if_pos ht, jsParseInt_digits ht, digitsToNat_eq_ofDigits]
  · rw [if_neg h]
    unfold parseIntSafe
    rw [if_neg]
    intro ht
    simp only [regexDigitsTest, Bool.and_eq_true, Bool.not_eq_true',
      List.all_eq_true] at ht
    refine h ⟨?_, ht.2⟩
    intro hnil
    rw [hnil] at ht
    simp at ht

/-- Claim C9: calling `feed` with `filterNeedle` set to the empty
string behaves exactly like calling it with no `filterNeedle` at all
(the where condition is chosen by JavaScript truthiness of the string),
so it returns all links unfiltered. -/
theorem feed_empty_needle_unfiltered (s : Store) (skip : Option Nat)
    (take? : Option Int) :
    feed s (some "") skip take? = feed s none skip take? ∧
    s.links.filter (feedWhere (some "")) = s.links := by
  have hw : feedWhere (some "") = feedWhere none := by
    funext l
    simp [feedWhere]
  constructor
  · unfold feed
    rw [hw]
  · rw [hw, show feedWhere none = fun _ => true from rfl, List.filter_true]

/-- Claim C4: for every store state and every valid `feed` call
(`take` in `[1, 50]`, or absent and defaulting to 30), `feed` returns
the links matching the filter in insertion order, sliced by `skip` and
`take`; consequently the result is a sublist of the store's links (so
insertion order is preserved) and has at most `take` elements. -/
theorem feed_insertion_order_sliced (s : Store) (needle : Option String)
    (skip : Option Nat) (t : Int) (h1 : 1 ≤ t) (h2 : t ≤ 50) :
    feed s needle skip (some t) =
      .ok (((s.links.filter (feedWhere needle)).drop (skip.getD 0)).take
        t.toNat) ∧
    (∀ r, feed s needle skip (some t) = .ok r →
        r.length ≤ t.toNat ∧
        r.Sublist (s.links.filter (feedWhere needle)) ∧
        r.Sublist s.links) ∧
    feed s needle skip none =
      .ok (((s.links.filter (feedWhere needle)).drop (skip.getD 0)).take 30) ∧
    (∀ r, feed s needle skip none = .ok r →
        r.length ≤ 30 ∧ r.Sublist s.links) := by
  have hslice : ∀ k : Nat,
      ((((s.links.filter (feedWhere needle)).drop (skip.getD 0)).take
        k).length ≤ k) ∧
      (((s.links.filter (feedWhere needle)).drop (skip.getD 0)).take
        k).Sublist (s.links.filter (feedWhere needle)) ∧
      (((s.links.filter (feedWhere needle)).drop (skip.getD 0)).take
        k).Sublist s.links := by
    intro k
    refine ⟨?_, ?_, ?_⟩
    · rw [List.length_take]
      exact min_le_left _ _
    · exact (List.take_sublist _ _).trans (List.drop_sublist _ _)
    · exact ((List.take_sublist _ _).trans (List.drop_sublist _ _)).trans
        (List.filter_sublist _)
  refine ⟨feed_ok_of_range s needle skip h1 h2, ?_, feed_default_take s needle skip, ?_⟩
  · intro r hr
    rw [feed_ok_of_range s needle skip h1 h2] at hr
    injection hr with hr
    subst hr
    exact hslice t.toNat
  · intro r hr
    rw [feed_default_take s needle skip] at hr
    injection hr with hr
    subst hr
    exact ⟨(hslice 30).1, (hslice 30).2.2⟩

/-- Witness for `feed_insertion_order_sliced`: a three-link store with
`skip = 1` and `take = 1`. -/
theorem feed_insertion_order_sliced_witness :
    (1 : Int) ≤ 1 ∧ (1 : Int) ≤ 50 ∧
    feed ⟨[⟨1, "a", "u1"⟩, ⟨2, "b", "u2"⟩, ⟨3, "c", "u3"⟩], [], 1⟩ none
        (some 1) (some 1) =
      .ok ((((⟨[⟨1, "a", "u1"⟩, ⟨2, "b", "u2"⟩, ⟨3, "c", "u3"⟩], [], 1⟩ :
        Store).links.filter (feedWhere none)).drop ((some 1).getD 0)).take
        (1 : Int).toNat) :=
  ⟨by decide, by decide,
    (feed_insertion_order_sliced
      ⟨[⟨1, "a", "u1"⟩, ⟨2, "b", "u2"⟩, ⟨3, "c", "u3"⟩], [], 1⟩ none
      (some 1) 1 (by decide) (by decide)).1⟩

/-- Claim C5: with a `filterNeedle` present, a link passes the feed
filter exactly when the needle occurs (case-sensitively) as a contiguous
substring of its `description` or of its `url`; a duplicate-free store
yields a duplicate-free result; with the needle absent every link
matches; and when the matching links fit in the default page the feed
result is exactly the matching links. -/
theorem feed_filter_substring_or (s : Store) (nd : String) :
    (∀ l, l ∈ s.links.filter (feedWhere (some nd)) ↔
        l ∈ s.links ∧
          ((∃ p q, l.description.data = p ++ nd.data ++ q) ∨
           (∃ p q, l.url.data = p ++ nd.data ++ q))) ∧
    (s.links.Nodup → (s.links.filter (feedWhere (some nd))).Nodup) ∧
    s.links.filter (feedWhere none) = s.links ∧
    ((s.links.filter (feedWhere (some nd))).length ≤ 30 →
        feed s (some nd) none none =
          .ok (s.links.filter (feedWhere (some nd)))) := by
  refine ⟨?_, fun h => List.Nodup.filter _ h, ?_, ?_⟩
  · intro l
    rw [List.mem_filter]
    by_cases hnd : nd = ""
    · subst hnd
      constructor
      · intro h
        exact ⟨h.1, Or.inl ⟨l.description.data, [], by simp⟩⟩
      · intro h
        exact ⟨h.1, by simp [feedWhere]⟩
    · have hfw : feedWhere (some nd) l =
          (strContains l.description nd || strContains l.url nd) := by
        simp [feedWhere, hnd]
      rw [hfw, Bool.or_eq_true, strContains_iff, strContains_iff]
  · rw [show feedWhere none = fun _ => true from rfl, List.filter_true]
  · intro hlen
    rw [feed_default_take s (some nd) none]
    unfold linkFindMany
    rw [Option.getD_none, List.drop_zero, List.take_of_length_le hlen]

/-- Witness for `feed_filter_substring_or` on the spec's two-link
example with needle `"foo"`. -/
theorem feed_filter_substring_or_witness :
    (⟨2, "contains foo", "http://b.com"⟩ ∈
        ([⟨1, "no match", "http://a.com"⟩, ⟨2, "contains foo", "http://b.com"⟩] :
          List Link).filter (feedWhere (some "foo")) ↔
      ⟨2, "contains foo", "http://b.com"⟩ ∈
        ([⟨1, "no match", "http://a.com"⟩, ⟨2, "contains foo", "http://b.com"⟩] :
          List Link) ∧
        ((∃ p q, ("contains foo" : String).data = p ++ ("foo" : String).data ++ q) ∨
         (∃ p q, ("http://b.com" : String).data = p ++ ("foo" : String).data ++ q))) ∧
    (([⟨1, "no match", "http://a.com"⟩, ⟨2, "contains foo", "http://b.com"⟩] :
        List Link).filter (feedWhere (some "foo"))).Nodup ∧
    feed ⟨[⟨1, "no match", "http://a.com"⟩, ⟨2, "contains foo", "http://b.com"⟩],
        [], 1⟩ (some "foo") none none =
      .ok (([⟨1, "no match", "http://a.com"⟩, ⟨2, "contains foo", "http://b.com"⟩] :
        List Link).filter (feedWhere (some "foo"))) :=
  ⟨(feed_filter_substring_or
      ⟨[⟨1, "no match", "http://a.com"⟩, ⟨2, "contains foo", "http://b.com"⟩],
        [], 1⟩ "foo").1 _,
   (feed_filter_substring_or
      ⟨[⟨1, "no match", "http://a.com"⟩, ⟨2, "contains foo", "http://b.com"⟩],
        [], 1⟩ "foo").2.1 (by decide),
   (feed_filter_substring_or
      ⟨[⟨1, "no match", "http://a.com"⟩, ⟨2, "contains foo", "http://b.com"⟩],
        [], 1⟩ "foo").2.2.2 (by decide)⟩

/-- Claim C6: for every `linkId` string that parses under the strict
digits-only parser and references an existing link, `postCommentOnLink`
creates exactly one comment row, with `linkId` the parsed integer,
`body` the body argument and the store-assigned next id, returns that
comment, and changes nothing else: the links are untouched and the new
row is appended after the existing comment rows. -/
theorem postComment_creates_single_row (s : Store) (arg body : String)
    (n : Int) (hp : parseIntSafe arg = some n)
    (hl : ∃ l ∈ s.links, l.id = n) :
    postCommentOnLink s arg body =
      .ok (⟨s.nextCommentId, body, n⟩,
        ⟨s.links, s.comments ++ [⟨s.nextCommentId, body, n⟩],
          s.nextCommentId + 1⟩) := by
  obtain ⟨ht, hjs⟩ := parseIntSafe_eq_some hp
  have hany : s.links.any (fun l => l.id = n) = true := by
    rw [List.any_eq_true]
    obtain ⟨l, hlmem, hlid⟩ := hl
    exact ⟨l, hlmem, by simpa using hlid⟩
  have hcreate : commentCreate s (jsParseInt arg) body =
      .ok (⟨s.nextCommentId, body, n⟩,
        ⟨s.links, s.comments ++ [⟨s.nextCommentId, body, n⟩],
          s.nextCommentId + 1⟩) := by
    rw [hjs]
    simp [commentCreate, hany]
  unfold postCommentOnLink postCommentOnLinkGen
  rw [hp, hcreate]

/-- Witness for `postComment_creates_single_row`: posting on link `1`
of a one-link store. -/
theorem postComment_creates_single_row_witness :
    parseIntSafe "1" = some 1 ∧
    (∃ l ∈ ([⟨1, "d", "u"⟩] : List Link), l.id = 1) ∧
    postCommentOnLink ⟨[⟨1, "d", "u"⟩], [], 5⟩ "1" "hi" =
      .ok (⟨5, "hi", 1⟩, ⟨[⟨1, "d", "u"⟩], [] ++ [⟨5, "hi", 1⟩], 5 + 1⟩) :=
  ⟨by decide, ⟨⟨1, "d", "u"⟩, by decide, rfl⟩,
    postComment_creates_single_row ⟨[⟨1, "d", "u"⟩], [], 5⟩ "1" "hi" 1
      (by decide) ⟨⟨1, "d", "u"⟩, by decide, rfl⟩⟩

/-- Claim C7: for every link, the `Link.comments` field resolver
returns exactly the comment rows whose `linkId` equals that link's
`id` — membership holds precisely for those rows, multiplicities are
preserved for them and zero for all others — and the result is a
sublist of the store's comments, i.e. in insertion order. -/
theorem linkComments_exactly_matching (s : Store) (parent : Link) :
    (∀ c, c ∈ linkComments s parent ↔
        c ∈ s.comments ∧ c.linkId = parent.id) ∧
    (linkComments s parent).Sublist s.comments ∧
    (∀ c, c.linkId = parent.id →
        (linkComments s parent).count c = s.comments.count c) ∧
    (∀ c, c.linkId ≠ parent.id → (linkComments s parent).count c = 0) := by
  refine ⟨?_, List.filter_sublist _, ?_, ?_⟩
  · intro c
    simp [linkComments, List.mem_filter]
  · intro c hc
    exact List.count_filter (by simpa using hc)
  · intro c hc
    rw [List.count_eq_zero]
    intro hmem
    simp only [linkComments, List.mem_filter, decide_eq_true_eq] at hmem
    exact hc hmem.2

/-- Witness for `linkComments_exactly_matching` on a store with
comments on two different links. -/
theorem linkComments_exactly_matching_witness :
    ((⟨10, "x", 1⟩ : Comment) ∈
        linkComments ⟨[⟨1, "d", "u"⟩], [⟨10, "x", 1⟩, ⟨11, "y", 2⟩], 12⟩
          ⟨1, "d", "u"⟩ ↔
      (⟨10, "x", 1⟩ : Comment) ∈
          ([⟨10, "x", 1⟩, ⟨11, "y", 2⟩] : List Comment) ∧
        (1 : Int) = 1) ∧
    (linkComments ⟨[⟨1, "d", "u"⟩], [⟨10, "x", 1⟩, ⟨11, "y", 2⟩], 12⟩
        ⟨1, "d", "u"⟩).count ⟨10, "x", 1⟩ =
      ([⟨10, "x", 1⟩, ⟨11, "y", 2⟩] : List Comment).count ⟨10, "x", 1⟩ ∧
    (linkComments ⟨[⟨1, "d", "u"⟩], [⟨10, "x", 1⟩, ⟨11, "y", 2⟩], 12⟩
        ⟨1, "d", "u"⟩).count ⟨11, "y", 2⟩ = 0 :=
  ⟨(linkComments_exactly_matching
      ⟨[⟨1, "d", "u"⟩], [⟨10, "x", 1⟩, ⟨11, "y", 2⟩], 12⟩ ⟨1, "d", "u"⟩).1 _,
   (linkComments_exactly_matching
      ⟨[⟨1, "d", "u"⟩], [⟨10, "x", 1⟩, ⟨11, "y", 2⟩], 12⟩ ⟨1, "d", "u"⟩).2.2.1
      _ rfl,
   (linkComments_exactly_matching
      ⟨[⟨1, "d", "u"⟩], [⟨10, "x", 1⟩, ⟨11, "y", 2⟩], 12⟩ ⟨1, "d", "u"⟩).2.2.2
      _ (by decide)⟩

/-- Claim C8: when the `id` argument parses to an integer `n`, the
`comment` query returns `none` exactly when no stored comment has id
`n` (absence is not an error), any comment it returns is a stored
comment with id `n`, and when such a comment exists one is returned. -/
theorem commentQuery_found_or_absent (s : Store) (idArg : String) (n : Int)
    (hp : jsParseInt idArg = some n) :
    (commentQuery s idArg = none ↔ ∀ c ∈ s.comments, c.id ≠ n) ∧
    (∀ c, commentQuery s idArg = some c → c ∈ s.comments ∧ c.id = n) ∧
    ((∃ c ∈ s.comments, c.id = n) →
        ∃ c, commentQuery s idArg = some c ∧ c ∈ s.comments ∧ c.id = n) := by
  have hq : commentQuery s idArg = s.comments.find? (fun c => c.id = n) := by
    unfold commentQuery
    rw [hp]
    rfl
  refine ⟨?_, ?_, ?_⟩
  · rw [hq, List.find?_eq_none]
    simp
  · intro c hc
    rw [hq] at hc
    exact ⟨List.mem_of_find?_eq_some hc, by simpa using List.find?_some hc⟩
  · rintro ⟨c, hc, hid⟩
    have hsome : (s.comments.find? (fun c => c.id = n)).isSome = true :=
      List.find?_isSome.mpr ⟨c, hc, by simpa using hid⟩
    obtain ⟨c', hc'⟩ := Option.isSome_iff_exists.mp hsome
    exact ⟨c', by rw [hq]; exact hc', List.mem_of_find?_eq_some hc',
      by simpa using List.find?_some hc'⟩

/-- Witness for `commentQuery_found_or_absent` at id `"12"` on a store
holding the comment with id 12. -/
theorem commentQuery_found_or_absent_witness :
    jsParseInt "12" = some 12 ∧
    ((∃ c ∈ ([⟨12, "b", 3⟩] : List Comment), c.id = 12) →
      ∃ c, commentQuery ⟨[], [⟨12, "b", 3⟩], 13⟩ "12" = some c ∧
        c ∈ ([⟨12, "b", 3⟩] : List Comment) ∧ c.id = 12) :=
  ⟨by decide,
    (commentQuery_found_or_absent ⟨[], [⟨12, "b", 3⟩], 13⟩ "12" 12
      (by decide)).2.2⟩

/-- Claim C1: `postCommentOnLink` fails with the `GraphQLError`
message `Cannot post comment on non-existing link with id '<value>'.`
(embedding the raw `linkId` argument) in exactly two cases — when the
strict parse of `linkId` fails, in which case the result is the same
for every store `create` function (no store call is observable), and
when the store rejects the insert with the known error code `P2003`;
every other store error during comment creation is propagated
unchanged, and conversely any run that produced this `GraphQLError`
was one of those two cases with exactly that message. -/
theorem postComment_reference_error_cases (arg body : String)
    (create : Option Int → String → Except PrismaError (Comment × Store)) :
    (parseIntSafe arg = none →
        postCommentOnLinkGen create arg body =
          .error (.graphQL (cannotPostMsg arg))) ∧
    (∀ m, parseIntSafe arg ≠ none →
        create (jsParseInt arg) body = .error (.known "P2003" m) →
        postCommentOnLinkGen create arg body =
          .error (.graphQL (cannotPostMsg arg))) ∧
    (∀ e, parseIntSafe arg ≠ none →
        create (jsParseInt arg) body = .error e →
        (∀ m, e ≠ .known "P2003" m) →
        postCommentOnLinkGen create arg body = .error (.store e)) ∧
    (∀ msg, postCommentOnLinkGen create arg body =
          .error (.graphQL msg) →
        msg = cannotPostMsg arg ∧
        (parseIntSafe arg = none ∨
          ∃ m, create (jsParseInt arg) body =
            .error (.known "P2003" m))) := by
  refine ⟨?_, ?_, ?_, ?_⟩
  · intro h
    unfold postCommentOnLinkGen
    rw [h]
  · intro m hne hc
    cases hps : parseIntSafe arg with
    | none => exact absurd hps hne
    | some k =>
      unfold postCommentOnLinkGen
      rw [hps, hc]
      simp [postCommentCatch]
  · intro e hne hc hnp
    cases hps : parseIntSafe arg with
    | none => exact absurd hps hne
    | some k =>
      unfold postCommentOnLinkGen
      rw [hps, hc]
      cases e with
      | known code m =>
        have hcode : code ≠ "P2003" := fun h => hnp m (by rw [h])
        simp [postCommentCatch, hcode]
      | other m => simp [postCommentCatch]
  · intro msg h
    unfold postCommentOnLinkGen at h
    cases hps : parseIntSafe arg with
    | none =>
      rw [hps] at h
      have h' : ResolverError.graphQL (cannotPostMsg arg) =
          ResolverError.graphQL msg := by
        injection h
      injection h' with h''
      exact ⟨h''.symm, Or.inl rfl⟩
    | some k =>
      rw [hps] at h
      cases hc : create (jsParseInt arg) body with
      | ok r =>
        rw [hc] at h
        exact absurd h (by simp)
      | error e =>
        rw [hc] at h
        have h' : postCommentCatch arg e = .graphQL msg := by
          injection h
        cases e with
        | known code m =>
          by_cases hcode : code = "P2003"
          · subst hcode
            have h2 : postCommentCatch arg (PrismaError.known "P2003" m) =
                .graphQL (cannotPostMsg arg) := by
              simp [postCommentCatch]
            rw [h2] at h'
            injection h' with h''
            exact ⟨h''.symm, Or.inr ⟨m, rfl⟩⟩
          · simp [postCommentCatch, hcode] at h'
        | other m => simp [postCommentCatch] at h'

/-- Witness for `postComment_reference_error_cases`: the unparseable
id `"12abc"`, a `P2003` rejection on id `"999"` against an empty
store, and an unrelated store error propagated unchanged. -/
theorem postComment_reference_error_cases_witness :
    postCommentOnLinkGen (commentCreate ⟨[], [], 1⟩) "12abc" "hi" =
      .error (.graphQL (cannotPostMsg "12abc")) ∧
    postCommentOnLinkGen (commentCreate ⟨[], [], 1⟩) "999" "hi" =
      .error (.graphQL (cannotPostMsg "999")) ∧
    postCommentOnLinkGen (fun _ _ => .error (.other "connection lost"))
        "999" "hi" =
      .error (.store (.other "connection lost")) :=
  ⟨(postComment_reference_error_cases "12abc" "hi"
      (commentCreate ⟨[], [], 1⟩)).1 (by decide),
   (postComment_reference_error_cases "999" "hi"
      (commentCreate ⟨[], [], 1⟩)).2.1 "Foreign key constraint failed"
      (by decide) rfl,
   (postComment_reference_error_cases "999" "hi"
      (fun _ _ => .error (.other "connection lost"))).2.2.1
      (.other "connection lost") (by decide) rfl
      (fun m => by simp)⟩

/-- Claim C10: the `comment` query resolver does an unguarded
JavaScript `parseInt` and raises no error of its own: it is the plain
composition of the store lookup with `parseInt`, an id with no leading
digits parses to `NaN` and finds nothing, `"12abc"` is silently
truncated to `12` and can return the comment with id 12, while the
strict digits-only parser used by `postCommentOnLink` rejects
`"12abc"`; the unguarded parse is strictly looser: it succeeds with the
same value whenever the strict parser does. -/
theorem commentQuery_unguarded_prefix_parse (s : String) (n : Int)
    (hp : parseIntSafe s = some n) :
    jsParseInt s = some n ∧
    (∀ (α : Type) (f : Option Int → α) (idArg : String),
        commentQueryGen f idArg = f (jsParseInt idArg)) ∧
    jsParseInt "abc" = none ∧
    commentQuery ⟨[], [⟨12, "b", 3⟩], 13⟩ "abc" = none ∧
    jsParseInt "12abc" = some 12 ∧
    parseIntSafe "12abc" = none ∧
    commentQuery ⟨[], [⟨12, "b", 3⟩], 13⟩ "12abc" = some ⟨12, "b", 3⟩ :=
  ⟨(parseIntSafe_eq_some hp).2, fun _ _ _ => rfl, by decide, by decide,
    by decide, by decide, by decide⟩

/-- Witness for `commentQuery_unguarded_prefix_parse` at the strictly
parseable id `"7"`. -/
theorem commentQuery_unguarded_prefix_parse_witness :
    parseIntSafe "7" = some 7 ∧ jsParseInt "7" = some 7 :=
  ⟨by decide, (commentQuery_unguarded_prefix_parse "7" 7 (by decide)).1⟩

end HackerNews
